import Mathlib

/-!
Verification of the device-ingestion and resilience pipeline of the
AI-Improv-Toolkit repository. Every definition below is a shallow embedding
of a function or class of the Python source (file and symbol named in each
doc comment); definitions that follow the wording of the design document
instead are explicitly marked as such.
-/

set_option autoImplicit false

namespace AIImprov

/-! ## Voice-activity carry state (src/code/ingest/_audio.py, audio_middleware) -/

/-- The four VAD carry values used by audio_middleware: the string literals
"n/a", "start", "continue" and "stop" assigned to vad_past_frames. -/
inductive VadState where
  | na
  | start
  | cont
  | stop
deriving DecidableEq, Fintype

/-- The per-frame carry update exactly as written in audio_middleware
(lines 215-224): in each branch the two conditionals are consecutive,
non-exclusive if statements, so the second one re-examines the value the
first one just wrote. -/
def vadUpdate (s : VadState) (speech : Bool) : VadState :=
  if speech then
    let s1 := if s = VadState.na ∨ s = VadState.stop then VadState.start else s
    if s1 = VadState.start ∨ s1 = VadState.cont then VadState.cont else s1
  else
    let s1 := if s = VadState.start ∨ s = VadState.cont then VadState.stop else s
    if s1 = VadState.stop then VadState.na else s1

/-- The 4-state transition rule as the design document words it:
speech=true maps NA or STOP to START and START or CONTINUE to CONTINUE;
speech=false maps START or CONTINUE to STOP, STOP to NA, and NA stays NA. -/
def vadUpdateSpec (s : VadState) (speech : Bool) : VadState :=
  if speech then
    match s with
    | VadState.na => VadState.start
    | VadState.stop => VadState.start
    | VadState.start => VadState.cont
    | VadState.cont => VadState.cont
  else
    match s with
    | VadState.start => VadState.stop
    | VadState.cont => VadState.stop
    | VadState.stop => VadState.na
    | VadState.na => VadState.na

/-- The carry value after each frame of a speech-flag sequence, under the
update the code performs. -/
def vadTrace (s : VadState) : List Bool → List VadState
  | [] => []
  | f :: fs =>
    let s1 := vadUpdate s f
    s1 :: vadTrace s1 fs

/-! ## Queue priorities and button events
(src/code/common/nats.py, src/code/ingest/_button.py) -/

/-- QueuePriority from src/code/common/nats.py. -/
inductive QueuePriority where
  | emergency
  | high
  | medium
  | standard
  | low
deriving DecidableEq

/-- The numeric value of each member (Emergency=1, High=10, Medium=20,
Standard=30, Low=40); lower value means served first. -/
def QueuePriority.val : QueuePriority → Nat
  | QueuePriority.emergency => 1
  | QueuePriority.high => 10
  | QueuePriority.medium => 20
  | QueuePriority.standard => 30
  | QueuePriority.low => 40

/-- AllowedActions from src/code/common/config.py: "reset" and "speak". -/
inductive ButtonAction where
  | reset
  | speak
deriving DecidableEq

/-- The status literals of nats.ButtonData: connected, disconnected, dead. -/
inductive ButtonStatus where
  | connected
  | disconnected
  | dead
deriving DecidableEq

/-- The message_type literals of nats.ButtonData. -/
inductive MessageType where
  | action
  | status
deriving DecidableEq

/-- The priority monitor_input_events (src/code/ingest/_button.py, lines
151-156) attaches to an action event: QueuePriority.High.value when the
action is reset, else QueuePriority.Standard.value. -/
def actionEventPriority (a : ButtonAction) : Nat :=
  if a = ButtonAction.reset then QueuePriority.high.val else QueuePriority.standard.val

/-- The priority monitor_input_events attaches to each status event, read
off the three construction sites in src/code/ingest/_button.py: connected
uses Medium (line 120), disconnected uses High (line 171), dead uses High
(line 189). -/
def statusEventPriority : ButtonStatus → Nat
  | ButtonStatus.connected => QueuePriority.medium.val
  | ButtonStatus.disconnected => QueuePriority.high.val
  | ButtonStatus.dead => QueuePriority.high.val

/-- ButtonData from src/code/common/nats.py. The time_stamp field default
is the expression round(time.time()) in the class body, which Python
evaluates exactly once, when the module is imported. -/
structure ButtonData where
  avatarId : Int
  messageType : MessageType
  action : Option ButtonAction
  status : Option ButtonStatus
  version : Nat
  objectType : String
  timeStamp : Nat
deriving DecidableEq

/-- An action ButtonData as monitor_input_events builds it (lines 145-150):
no time_stamp argument is passed, so the field takes the import-time default.
importTime is the value round(time.time()) had at module import; currentTime
is the wall clock at the moment the event occurs, which the construction
does not consult. -/
def mkActionEventData (importTime currentTime : Nat) (avatarId : Int)
    (a : ButtonAction) : ButtonData :=
  ⟨avatarId, MessageType.action, some a, none, 1, "ButtonData", importTime⟩

/-- A status ButtonData as monitor_input_events builds it (lines 120-125,
172-177, 190-195): again no time_stamp argument, so the import-time default
is used; currentTime is not consulted. -/
def mkStatusEventData (importTime currentTime : Nat) (avatarId : Int)
    (st : ButtonStatus) : ButtonData :=
  ⟨avatarId, MessageType.status, none, some st, 1, "ButtonData", importTime⟩

/-! ## Resampling factors and int16 conversion
(src/code/ingest/_audio.py, resample_audio) -/

/-- The up/down factor computation of resample_audio: up = int(target_rate),
down = int(original_rate), both divided by their gcd. -/
def resampleFactors (targetRate originalRate : Nat) : Nat × Nat :=
  let factor := Nat.gcd targetRate originalRate
  (targetRate / factor, originalRate / factor)

/-- INT16_MAX from _audio.py line 18: the float 32768.0 (which is not a
representable int16 value). -/
def INT16_MAX : Int := 32768

/-- INT16_MIN from _audio.py line 19: the float -32768.0. -/
def INT16_MIN : Int := -32768

/-- np.clip(r, INT16_MIN, INT16_MAX) applied to a sample value r that
np.round has already made integral. -/
def clipSample (r : Int) : Int := max INT16_MIN (min INT16_MAX r)

/-- astype(np.int16) on an integral float value: reduction modulo 2^16 into
[-32768, 32767] (two-complement wraparound). -/
def toInt16 (r : Int) : Int := (r + 32768) % 65536 - 32768

/-- What resample_audio line 195 does to each rounded output sample:
np.clip(..., INT16_MIN, INT16_MAX).astype(np.int16). -/
def codeSaturate (r : Int) : Int := toInt16 (clipSample r)

/-- Saturation as the claim words it: a rounded value above 32767 becomes
32767 and one below -32768 becomes -32768. Stated for comparison with
codeSaturate. -/
def claimSaturate (r : Int) : Int := max (-32768) (min 32767 r)

/-! ## Debounce (src/code/ingest/_button.py, monitor_input_events) -/

/-- One debounce decision (lines 134-138): the event at wall-clock time now
is suppressed when time_stamp + debounce_ms > now; otherwise it is accepted
and time_stamp is updated to now. Returns (accepted, new time_stamp). -/
def debounceStep (debounceMs lastTs now : Nat) : Bool × Nat :=
  if lastTs + debounceMs > now then (false, lastTs) else (true, now)

/-- The fold step threading (accepted timestamps, time_stamp) through one
incoming key-down event. -/
def debounceFold (debounceMs : Nat) (acc : List Nat × Nat) (t : Nat) : List Nat × Nat :=
  let r := debounceStep debounceMs acc.2 t
  if r.1 then (acc.1 ++ [t], r.2) else (acc.1, r.2)

/-- The timestamps of the accepted events over a sequence of key-down event
times on one device; time_stamp starts at 0 (line 114). -/
def debounceAccepted (debounceMs : Nat) (events : List Nat) : List Nat :=
  (events.foldl (debounceFold debounceMs) (([] : List Nat), 0)).1

/-! ## SlidingQueue (src/code/common/dataTypes.py) -/

/-- SlidingQueue: a bounded FIFO held as a list with the head at position 0,
wrapping queue.Queue with the configured maxsize (the constructor rejects
maxsize <= 0, so an embedded queue always has positive maxsize). -/
structure SlidingQueue (α : Type) where
  items : List α
  maxsize : Nat

/-- The freshly constructed queue of a given capacity. -/
def SlidingQueue.empty (α : Type) (maxsize : Nat) : SlidingQueue α := ⟨[], maxsize⟩

/-- The items after the evict step of SlidingQueue.put: if self.full()
(qsize >= maxsize), self.get(block=False) removes the head element. -/
def SlidingQueue.afterEvict {α : Type} (q : SlidingQueue α) : List α :=
  if q.maxsize ≤ q.items.length then q.items.tail else q.items

/-- Whether the final super().put(item) call inside SlidingQueue.put would
find the queue still full and therefore wait. -/
def SlidingQueue.putWouldBlock {α : Type} (q : SlidingQueue α) : Bool :=
  q.maxsize ≤ q.afterEvict.length

/-- SlidingQueue.put: evict the head when full, then append at the tail. -/
def SlidingQueue.put {α : Type} (q : SlidingQueue α) (x : α) : SlidingQueue α :=
  ⟨q.afterEvict ++ [x], q.maxsize⟩

/-- A sequence of sequential put calls. -/
def SlidingQueue.putMany {α : Type} (q : SlidingQueue α) (xs : List α) : SlidingQueue α :=
  xs.foldl SlidingQueue.put q

/-! ## Queue shutdown (design document, section 4.1) -/

/-- The two failure signals of the queue contract: Empty from a
non-blocking get on an empty queue, Shutdown from any use after shutdown. -/
inductive QueueSignal where
  | emptySig
  | shutdownSig
deriving DecidableEq

/-- Modelled from the spec: the shutdown facility of the SlidingWindowQueue.
The class SlidingQueue in src/code/common/dataTypes.py only overrides put
and put_nowait; get and any shutdown facility come from the standard
library queue.Queue, which is not part of this repository, and no shutdown
call site appears under src/. Section 4.1 of the design document specifies:
shutdown() transitions the queue to a terminal state, and all blocked and
subsequent get/put calls fail with a Shutdown condition rather than hanging
forever. The eviction behaviour of put is kept from the source. -/
structure ShutQueue (α : Type) where
  items : List α
  maxsize : Nat
  isShutDown : Bool

/-- shutdown(): enter the terminal state. -/
def ShutQueue.shutdown {α : Type} (q : ShutQueue α) : ShutQueue α :=
  ⟨q.items, q.maxsize, true⟩

/-- put on the shutdown-aware queue: signals Shutdown in the terminal
state, otherwise evicts the head when full and appends at the tail. -/
def ShutQueue.put {α : Type} (q : ShutQueue α) (x : α) : Except QueueSignal (ShutQueue α) :=
  if q.isShutDown then Except.error QueueSignal.shutdownSig
  else
    Except.ok ⟨(if q.maxsize ≤ q.items.length then q.items.tail else q.items) ++ [x],
      q.maxsize, false⟩

/-- get on the shutdown-aware queue: signals Shutdown in the terminal state
(this is also the fate of a blocked get once shutdown runs, since a waiter
re-examines the state it wakes up in); otherwise returns the head, or the
Empty signal when nothing is available. -/
def ShutQueue.get {α : Type} (q : ShutQueue α) : Except QueueSignal (α × ShutQueue α) :=
  if q.isShutDown then Except.error QueueSignal.shutdownSig
  else
    match q.items with
    | [] => Except.error QueueSignal.emptySig
    | x :: rest => Except.ok (x, ⟨rest, q.maxsize, false⟩)

/-! ## The audio middleware step (src/code/ingest/_audio.py, audio_middleware) -/

/-- TaggedAudioFrame as audio_middleware constructs it (lines 234-250):
the processed payload together with is_de_noised, is_silence, is_voice,
vad_state, rms_db and sequence_num. Payload samples are the int16 values;
the rms value is kept as a rational. -/
structure TaggedAudioFrame where
  pcm : List Int
  isDeNoised : Bool
  isSilence : Bool
  isVoice : Bool
  vadState : VadState
  rmsDb : ℚ
  sequenceNum : Nat

/-- The configuration fields audio_middleware reads from config.Audio. -/
structure AudioConfig where
  sampleRate : Nat
  silenceThreshold : ℚ
  useNoiseReducer : Bool

/-- One iteration of the audio_middleware while loop, for one dequeued
frame. The external signal-processing routines are taken as parameters:
resample covers resample_audio together with the squeeze and astype(int16)
normalisation (lines 201-208), rmsOf is the RMS computation of is_silence,
vadIsSpeech is webrtcvad Vad.is_speech on the processed bytes, and denoise
is noisereduce reduce_noise producing the rounded float samples that the
code then clips and casts exactly as resample_audio does (line 232).
Following the code order: RMS/silence and the VAD flag are computed on the
processed samples BEFORE the noise-reduction branch, which only replaces
the payload. Returns the emitted frame, the new carry and the next
sequence number. -/
def audioMiddlewareStep
    (resample : List Int → Nat → Nat → List Int)
    (rmsOf : List Int → ℚ)
    (vadIsSpeech : List Int → Nat → Bool)
    (denoise : List Int → List Int)
    (cfg : AudioConfig) (carry : VadState) (seqNum : Nat)
    (frame : List Int) (frameRate : Nat) : TaggedAudioFrame × VadState × Nat :=
  let processed := resample frame frameRate cfg.sampleRate
  let rmsValue := rmsOf processed
  let silenceFlag : Bool := rmsValue < cfg.silenceThreshold
  let vadFlag := vadIsSpeech processed cfg.sampleRate
  let carry2 := vadUpdate carry vadFlag
  let payload := if cfg.useNoiseReducer then (denoise processed).map codeSaturate else processed
  (⟨payload, cfg.useNoiseReducer, silenceFlag, vadFlag, carry2, rmsValue, seqNum⟩,
    carry2, seqNum + 1)

/-! ## Button device session and reconnection
(src/code/ingest/_button.py, reconnect_device and monitor_input_events) -/

/-- MAX_RECONNECT_ATTEMPTS from src/code/ingest/_button.py line 16. -/
def MAX_RECONNECT_ATTEMPTS : Nat := 5

/-- The externally visible steps of a button device session: device open
attempts (with their outcome) and the status events put on the queue. -/
inductive SessionEvent where
  | openAttempt (success : Bool)
  | statusConnected
  | statusDisconnected
  | statusDead
deriving DecidableEq

/-- reconnect_device (lines 86-103): while True, try to open the device;
return on success, sleep and retry on OSError. outcomes lists the results
of the successive open attempts the environment will deliver; the run stops
at the first success. Returns the open attempts performed and whether the
call returned at all - false means every listed attempt failed and the
loop is still retrying (it emits no event and never gives up on its own). -/
def reconnectDeviceRun : List Bool → List SessionEvent × Bool
  | [] => ([], false)
  | o :: rest =>
    if o then ([SessionEvent.openAttempt true], true)
    else
      let r := reconnectDeviceRun rest
      (SessionEvent.openAttempt false :: r.1, r.2)

/-- monitor_input_events for a device whose read loop always eventually
raises OSError (the failing-device scenario of the claim): the round emits
the connected status, then the disconnected status when the loop dies;
if reconnect_count has already reached MAX_RECONNECT_ATTEMPTS it emits the
dead status and returns (lines 185-198); otherwise it calls
reconnect_device with the next outcome list and, when that call returns,
restarts itself with reconnect_count + 1 (lines 199-213). opens supplies
one outcome list per reconnect_device call. -/
def monitorSessionRun (k : Nat) (opens : List (List Bool)) : List SessionEvent :=
  SessionEvent.statusConnected :: SessionEvent.statusDisconnected ::
    (if h : MAX_RECONNECT_ATTEMPTS ≤ k then [SessionEvent.statusDead]
     else
       match opens with
       | [] => []
       | outs :: rest =>
         let r := reconnectDeviceRun outs
         r.1 ++ (if r.2 then monitorSessionRun (k + 1) rest else []))
termination_by MAX_RECONNECT_ATTEMPTS - k
decreasing_by
  simp only [MAX_RECONNECT_ATTEMPTS] at h ⊢
  omega

/-- The number of open attempts in a session trace. -/
def openCount (evs : List SessionEvent) : Nat :=
  evs.countP (fun e => match e with | SessionEvent.openAttempt _ => true | _ => false)

/-- The number of dead status events in a session trace. -/
def deadCount (evs : List SessionEvent) : Nat :=
  evs.count SessionEvent.statusDead

/-! ## The priority dispatch queue
(src/code/common/nats.py QueueRequest on asyncio.PriorityQueue, which keeps
its entries in a CPython heapq list) -/

/-- QueueRequest from src/code/common/nats.py: a priority (lower number
served first) and the request payload, here identified by a number. The
dataclass disables ordering and defines only a custom less-than that
compares the priority field alone. -/
structure QueueRequest where
  priority : Int
  requestId : Nat
deriving DecidableEq

instance : Inhabited QueueRequest := ⟨⟨0, 0⟩⟩

/-- QueueRequest.__lt__ (nats.py lines 55-56): compares only priority. -/
def qlt (a b : QueueRequest) : Bool := a.priority < b.priority

/-- The parent index of heap slot i in the array encoding: (i - 1) // 2. -/
def parentIdx (i : Nat) : Nat := (i - 1) / 2

/-- heapq._siftdown(heap, startpos, pos) with newitem already read from
heap[pos]: walk toward the root, moving each parent that compares greater
down into pos, and finally store newitem. The fuel argument only bounds the
recursion; fuel = pos makes the run identical to the CPython loop, because
pos strictly decreases and the fuel-exhausted case (then pos = 0) returns
the same store the loop performs at the root. -/
def siftdownAux (startpos : Nat) (newitem : QueueRequest) :
    Nat → List QueueRequest → Nat → List QueueRequest
  | 0, heap, pos => heap.set pos newitem
  | Nat.succ fuel, heap, pos =>
    if startpos < pos then
      let parentpos := parentIdx pos
      let parent := heap.getD parentpos default
      if qlt newitem parent then
        siftdownAux startpos newitem fuel (heap.set pos parent) parentpos
      else heap.set pos newitem
    else heap.set pos newitem

/-- heapq._siftdown as called by the library. -/
def siftdown (startpos : Nat) (newitem : QueueRequest) (heap : List QueueRequest)
    (pos : Nat) : List QueueRequest :=
  siftdownAux startpos newitem pos heap pos

/-- The child chosen by the loop body of heapq._siftup: the right child
when it exists and the left child does not compare less than it, else the
left child. childpos is the left child index. -/
def childSel (heap : List QueueRequest) (childpos : Nat) : Nat :=
  if childpos + 1 < heap.length ∧
      ¬ qlt (heap.getD childpos default) (heap.getD (childpos + 1) default)
  then childpos + 1 else childpos

/-- heapq._siftup(heap, pos) with newitem already read from heap[pos]:
walk down, pulling the smaller child up into pos, until pos has no left
child, then bubble newitem back up with _siftdown. fuel = heap.length makes
the run identical to the CPython loop: the distance to the end strictly
decreases, and at fuel exhaustion pos is already childless so the
fuel-exhausted case performs the same final _siftdown call. -/
def siftupAux (startpos : Nat) (newitem : QueueRequest) :
    Nat → List QueueRequest → Nat → List QueueRequest
  | 0, heap, pos => siftdown startpos newitem heap pos
  | Nat.succ fuel, heap, pos =>
    if 2 * pos + 1 < heap.length then
      let c := childSel heap (2 * pos + 1)
      siftupAux startpos newitem fuel (heap.set pos (heap.getD c default)) c
    else siftdown startpos newitem heap pos

/-- heapq._siftup as called by the library. -/
def siftup (heap : List QueueRequest) (startpos pos : Nat) (newitem : QueueRequest) :
    List QueueRequest :=
  siftupAux startpos newitem heap.length heap pos

/-- heapq.heappush: append the item and sift it toward the root. -/
def heappush (heap : List QueueRequest) (item : QueueRequest) : List QueueRequest :=
  siftdown 0 item (heap ++ [item]) heap.length

/-- heapq.heappop: remove and return the root; the popped tail element is
sifted down from the root. none models the IndexError on an empty heap
(asyncio.PriorityQueue only calls it when an item is present). -/
def heappop : List QueueRequest → Option (QueueRequest × List QueueRequest)
  | [] => none
  | x :: xs =>
    match xs with
    | [] => some (x, [])
    | _ :: _ =>
      let lastelt := (x :: xs).getLastD default
      let rest := (x :: xs).dropLast
      some (rest.getD 0 default, siftup (rest.set 0 lastelt) 0 0 lastelt)

/-- An operation on the asyncio.PriorityQueue holding QueueRequest values:
put_nowait (heappush) or get (heappop). -/
inductive HeapOp where
  | push (item : QueueRequest)
  | pop
deriving DecidableEq

/-- Run a sequence of queue operations starting from the given heap,
recording for every completed get the dequeued request together with the
queue contents at the moment of the get. A get on an empty queue records
nothing (the caller would suspend). -/
def runOps : List HeapOp → List QueueRequest →
    List QueueRequest × List (QueueRequest × List QueueRequest)
  | [], heap => (heap, [])
  | HeapOp.push it :: ops, heap => runOps ops (heappush heap it)
  | HeapOp.pop :: ops, heap =>
    match heappop heap with
    | none => runOps ops heap
    | some (it, rest) =>
      let r := runOps ops rest
      (r.1, (it, heap) :: r.2)

/-- Dequeue up to n items in a row. -/
def drainHeap : Nat → List QueueRequest → List QueueRequest
  | 0, _ => []
  | Nat.succ n, heap =>
    match heappop heap with
    | none => []
    | some (it, rest) => it :: drainHeap n rest

/-- The priority stored at heap slot i (the default value outside range,
which the proofs never rely on). -/
def prio (heap : List QueueRequest) (i : Nat) : Int :=
  (heap.getD i default).priority

/-- The binary-heap order heapq maintains on the array: no slot compares
less than its parent, i.e. every parent priority is at most the child
priority. -/
def IsHeap (heap : List QueueRequest) : Prop :=
  ∀ i, 0 < i → i < heap.length → prio heap (parentIdx i) ≤ prio heap i

/-! ## Theorems -/

/-- C1: the claimed 4-state transition rule does not hold of the code. The
two consecutive (non-exclusive) if statements of audio_middleware collapse
NA under speech=true to CONTINUE instead of START, the flag sequence
[F,T,T,F,F] from NA yields [NA,CONTINUE,CONTINUE,NA,NA] instead of
[NA,START,CONTINUE,STOP,NA], and no input at all can produce the START or
STOP states, although the rule the design document states (vadUpdateSpec)
produces both. -/
theorem vad_carry_code_bug :
    vadUpdate VadState.na true = VadState.cont ∧
    vadUpdateSpec VadState.na true = VadState.start ∧
    vadTrace VadState.na [false, true, true, false, false] =
      [VadState.na, VadState.cont, VadState.cont, VadState.na, VadState.na] ∧
    vadTrace VadState.na [false, true, true, false, false] ≠
      [VadState.na, VadState.start, VadState.cont, VadState.stop, VadState.na] ∧
    (∀ s b, vadUpdate s b ≠ VadState.start ∧ vadUpdate s b ≠ VadState.stop) := by
  decide

/-- C4 counterexample: the disconnected status event is enqueued with
priority High (10), not Medium (20) as the claim states. -/
theorem button_priority_counterexample :
    statusEventPriority ButtonStatus.disconnected = 10 ∧
    QueuePriority.medium.val = 20 ∧
    statusEventPriority ButtonStatus.disconnected ≠ QueuePriority.medium.val := by
  decide

/-- C4 amended: reset actions get High priority and every other action gets
Standard; a connected status event gets Medium; a disconnected status event
gets High; a dead status event gets High. -/
theorem button_priority_amended :
    actionEventPriority ButtonAction.reset = QueuePriority.high.val ∧
    actionEventPriority ButtonAction.speak = QueuePriority.standard.val ∧
    statusEventPriority ButtonStatus.connected = QueuePriority.medium.val ∧
    statusEventPriority ButtonStatus.disconnected = QueuePriority.high.val ∧
    statusEventPriority ButtonStatus.dead = QueuePriority.high.val := by
  decide

/-- C7: the factor computation divides target and source rates by their
gcd as claimed, but the saturation claim fails: resample_audio clips to
INT16_MAX = 32768.0, which is not an int16 value, so a rounded sample of
32768 (e.g. any resampled value in [32767.5, 32768]) survives the clip and
wraps around to -32768 in astype(np.int16), instead of saturating to 32767
as the claim states. Values at or below -32768 and values within
[-32768, 32767] behave as claimed. -/
theorem resample_saturation_code_bug :
    resampleFactors 48000 16000 = (3, 1) ∧
    resampleFactors 16000 48000 = (1, 3) ∧
    codeSaturate 32768 = -32768 ∧
    claimSaturate 32768 = 32767 ∧
    codeSaturate 32768 ≠ claimSaturate 32768 ∧
    codeSaturate 40000 = -32768 ∧
    codeSaturate (-40000) = -32768 ∧
    codeSaturate 32767 = 32767 ∧
    codeSaturate (-32768) = -32768 := by
  decide

/-- C10: the time_stamp default of ButtonData is evaluated once at module
import, and every construction site in monitor_input_events omits the
time_stamp argument, so an action event occurring at time t1 and a status
event occurring at time t2 carry the same timestamp - the import-time
value - whatever t1 and t2 are. -/
theorem button_timestamp_import_constant :
    ∀ (importTime t1 t2 : Nat) (aid1 aid2 : Int) (a : ButtonAction) (st : ButtonStatus),
      (mkActionEventData importTime t1 aid1 a).timeStamp =
        (mkStatusEventData importTime t2 aid2 st).timeStamp ∧
      (mkActionEventData importTime t1 aid1 a).timeStamp = importTime ∧
      (mkStatusEventData importTime t2 aid2 st).timeStamp = importTime := by
  intro importTime t1 t2 aid1 aid2 a st
  exact ⟨rfl, rfl, rfl⟩

/-- C6 (shutdown modelled from the design document, see ShutQueue): after
shutdown() the queue is in a terminal state - shutdown is idempotent - and
every get or put call on it fails with the Shutdown signal instead of
succeeding or waiting. -/
theorem queue_shutdown_terminal (α : Type) :
    ∀ (q : ShutQueue α) (x : α),
      (q.shutdown).put x = Except.error QueueSignal.shutdownSig ∧
      (q.shutdown).get = Except.error QueueSignal.shutdownSig ∧
      (q.shutdown).shutdown = q.shutdown ∧
      (q.shutdown).isShutDown = true := by
  intro q x
  refine ⟨rfl, rfl, rfl, rfl⟩

/-- C8: flipping Use_noise_reducer changes neither the silence flag, the
voice flag, the carry state, the reported RMS value, nor the resulting
sequence number of the emitted TaggedAudioFrame - the branch only replaces
the payload and sets is_de_noised - for every frame, carry state, sequence
number and every behaviour of the external resampler, RMS, VAD and
denoiser routines. -/
theorem noise_reducer_noninterference :
    ∀ (resample : List Int → Nat → Nat → List Int) (rmsOf : List Int → ℚ)
      (vadIsSpeech : List Int → Nat → Bool) (denoise : List Int → List Int)
      (sr : Nat) (th : ℚ) (carry : VadState) (seqNum : Nat)
      (frame : List Int) (frameRate : Nat),
      (audioMiddlewareStep resample rmsOf vadIsSpeech denoise ⟨sr, th, true⟩
          carry seqNum frame frameRate).1.isSilence =
        (audioMiddlewareStep resample rmsOf vadIsSpeech denoise ⟨sr, th, false⟩
          carry seqNum frame frameRate).1.isSilence ∧
      (audioMiddlewareStep resample rmsOf vadIsSpeech denoise ⟨sr, th, true⟩
          carry seqNum frame frameRate).1.isVoice =
        (audioMiddlewareStep resample rmsOf vadIsSpeech denoise ⟨sr, th, false⟩
          carry seqNum frame frameRate).1.isVoice ∧
      (audioMiddlewareStep resample rmsOf vadIsSpeech denoise ⟨sr, th, true⟩
          carry seqNum frame frameRate).1.vadState =
        (audioMiddlewareStep resample rmsOf vadIsSpeech denoise ⟨sr, th, false⟩
          carry seqNum frame frameRate).1.vadState ∧
      (audioMiddlewareStep resample rmsOf vadIsSpeech denoise ⟨sr, th, true⟩
          carry seqNum frame frameRate).1.rmsDb =
        (audioMiddlewareStep resample rmsOf vadIsSpeech denoise ⟨sr, th, false⟩
          carry seqNum frame frameRate).1.rmsDb ∧
      (audioMiddlewareStep resample rmsOf vadIsSpeech denoise ⟨sr, th, true⟩
          carry seqNum frame frameRate).2 =
        (audioMiddlewareStep resample rmsOf vadIsSpeech denoise ⟨sr, th, false⟩
          carry seqNum frame frameRate).2 ∧
      (audioMiddlewareStep resample rmsOf vadIsSpeech denoise ⟨sr, th, true⟩
          carry seqNum frame frameRate).1.isDeNoised = true ∧
      (audioMiddlewareStep resample rmsOf vadIsSpeech denoise ⟨sr, th, false⟩
          carry seqNum frame frameRate).1.isDeNoised = false := by
  intro resample rmsOf vadIsSpeech denoise sr th carry seqNum frame frameRate
  exact ⟨rfl, rfl, rfl, rfl, rfl, rfl, rfl⟩

/-- C2 counterexample: four equal-priority requests enqueued in the order
e1, e2, e3, e4 dequeue in the order e1, e3, e2, e4 - the CPython heap that
backs asyncio.PriorityQueue is not insertion-stable and QueueRequest
carries no enqueue counter to break ties. -/
theorem priority_fifo_counterexample :
    drainHeap 4
        (heappush (heappush (heappush (heappush [] ⟨30, 1⟩) ⟨30, 2⟩) ⟨30, 3⟩) ⟨30, 4⟩) =
      [⟨30, 1⟩, ⟨30, 3⟩, ⟨30, 2⟩, ⟨30, 4⟩] ∧
    [(⟨30, 1⟩ : QueueRequest), ⟨30, 3⟩, ⟨30, 2⟩, ⟨30, 4⟩] ≠
      [⟨30, 1⟩, ⟨30, 2⟩, ⟨30, 3⟩, ⟨30, 4⟩] := by
  decide

/-- putMany peels its first element into a put. -/
theorem sliding_putMany_cons {α : Type} (q : SlidingQueue α) (x : α) (xs : List α) :
    q.putMany (x :: xs) = (q.put x).putMany xs := rfl

/-- put preserves the configured capacity. -/
theorem sliding_put_maxsize {α : Type} (q : SlidingQueue α) (x : α) :
    (q.put x).maxsize = q.maxsize := rfl

/-- putMany preserves the configured capacity. -/
theorem sliding_putMany_maxsize {α : Type} (xs : List α) (q : SlidingQueue α) :
    (q.putMany xs).maxsize = q.maxsize := by
  induction xs generalizing q with
  | nil => rfl
  | cons x xs ih => rw [sliding_putMany_cons, ih, sliding_put_maxsize]

/-- One put keeps the occupancy at or below a positive capacity. -/
theorem sliding_put_length {α : Type} (q : SlidingQueue α) (x : α)
    (hC : 0 < q.maxsize) (h : q.items.length ≤ q.maxsize) :
    (q.put x).items.length ≤ q.maxsize := by
  simp only [SlidingQueue.put, SlidingQueue.afterEvict]
  by_cases hfull : q.maxsize ≤ q.items.length
  · simp only [if_pos hfull, List.length_append, List.length_tail, List.length_cons,
      List.length_nil]
    omega
  · simp only [if_neg hfull, List.length_append, List.length_cons, List.length_nil]
    omega

/-- With a positive capacity and occupancy within it, the inner
super().put never finds the queue full after the evict step. -/
theorem sliding_put_noblock {α : Type} (q : SlidingQueue α)
    (hC : 0 < q.maxsize) (h : q.items.length ≤ q.maxsize) :
    q.putWouldBlock = false := by
  simp only [SlidingQueue.putWouldBlock, SlidingQueue.afterEvict,
    decide_eq_false_iff_not, not_le]
  by_cases hfull : q.maxsize ≤ q.items.length
  · simp only [if_pos hfull, List.length_tail]
    omega
  · simp only [if_neg hfull]
    omega

/-- helper: length after appending one element. -/
theorem length_append_one {α : Type} (l : List α) (x : α) :
    (l ++ [x]).length = l.length + 1 := by
  simp

/-- putMany keeps the occupancy at or below a positive capacity. -/
theorem sliding_putMany_length {α : Type} (xs : List α) (q : SlidingQueue α)
    (hC : 0 < q.maxsize) (h : q.items.length ≤ q.maxsize) :
    (q.putMany xs).items.length ≤ q.maxsize := by
  induction xs generalizing q with
  | nil => exact h
  | cons x xs ih =>
    rw [sliding_putMany_cons]
    have h2 := ih (q.put x) (by rwa [sliding_put_maxsize]) (sliding_put_length q x hC h)
    rwa [sliding_put_maxsize] at h2

/-- The contents after a run of puts: the accumulated list followed by the
new items, truncated from the front to the capacity. -/
theorem sliding_putMany_items {α : Type} (xs : List α) (acc : List α) (C : Nat)
    (hC : 0 < C) (hacc : acc.length ≤ C) :
    (SlidingQueue.putMany ⟨acc, C⟩ xs).items =
      (acc ++ xs).drop (acc.length + xs.length - C) := by
  induction xs generalizing acc with
  | nil =>
    simp only [SlidingQueue.putMany, List.foldl_nil, List.append_nil, List.length_nil,
      Nat.add_zero]
    rw [Nat.sub_eq_zero_of_le hacc, List.drop_zero]
  | cons x xs ih =>
    rw [sliding_putMany_cons]
    by_cases hfull : C ≤ acc.length
    · have hlen : acc.length = C := le_antisymm hacc hfull
      have hne : acc ≠ [] := by
        intro hnil
        rw [hnil] at hlen
        simp only [List.length_nil] at hlen
        omega
      obtain ⟨a, t, rfl⟩ := List.exists_cons_of_ne_nil hne
      have hlen2 : t.length + 1 = C := by simpa using hlen
      have hput : SlidingQueue.put ⟨a :: t, C⟩ x = ⟨t ++ [x], C⟩ := by
        simp only [SlidingQueue.put, SlidingQueue.afterEvict]
        rw [if_pos hfull]
        rfl
      rw [hput, ih (t ++ [x]) (by rw [length_append_one]; omega)]
      have harith1 : (t ++ [x]).length + xs.length - C = xs.length := by
        rw [length_append_one]; omega
      have harith2 : (a :: t).length + (x :: xs).length - C = xs.length + 1 := by
        simp only [List.length_cons]; omega
      rw [harith1, harith2, List.cons_append, List.drop_succ_cons, List.append_assoc,
        List.singleton_append]
    · have hput : SlidingQueue.put ⟨acc, C⟩ x = ⟨acc ++ [x], C⟩ := by
        simp only [SlidingQueue.put, SlidingQueue.afterEvict]
        rw [if_neg hfull]
      rw [hput, ih (acc ++ [x]) (by rw [length_append_one]; omega)]
      have harith : (acc ++ [x]).length + xs.length - C =
          acc.length + (x :: xs).length - C := by
        rw [length_append_one]; simp only [List.length_cons]; omega
      rw [harith, List.append_assoc, List.singleton_append]

/-- C5: for a SlidingQueue of positive capacity C and any sequence of more
than C sequential puts, the occupancy never exceeds C at any intermediate
point, no put ever reaches a still-full inner put (so no put blocks), and
the final contents are exactly the last C items in put order. -/
theorem sliding_window_ok (α : Type) (C : Nat) (hC : 0 < C) (xs : List α)
    (hN : C < xs.length) :
    (∀ i : Nat, ((SlidingQueue.empty α C).putMany (xs.take i)).items.length ≤ C) ∧
    (∀ i : Nat, ((SlidingQueue.empty α C).putMany (xs.take i)).putWouldBlock = false) ∧
    ((SlidingQueue.empty α C).putMany xs).items = xs.drop (xs.length - C) := by
  refine ⟨?_, ?_, ?_⟩
  · intro i
    exact sliding_putMany_length (xs.take i) (SlidingQueue.empty α C) hC
      (by simp [SlidingQueue.empty])
  · intro i
    have hmax : ((SlidingQueue.empty α C).putMany (xs.take i)).maxsize = C :=
      sliding_putMany_maxsize _ _
    apply sliding_put_noblock
    · rw [hmax]; exact hC
    · rw [hmax]
      exact sliding_putMany_length (xs.take i) (SlidingQueue.empty α C) hC
        (by simp [SlidingQueue.empty])
  · have h := sliding_putMany_items xs [] C hC (by simp)
    simpa using h

/-- C5 witness: capacity 2 with the three puts 5, 6, 7 - the hypotheses
hold and the final contents are the last two items. -/
theorem sliding_window_ok_witness :
    ((0 : Nat) < 2 ∧ 2 < ([5, 6, 7] : List Nat).length) ∧
    ((SlidingQueue.empty Nat 2).putMany [5, 6, 7]).items = [6, 7] := by
  refine ⟨by decide, ?_⟩
  have h := (sliding_window_ok Nat 2 (by decide) [5, 6, 7] (by decide)).2.2
  simpa using h

/-- The debounce fold keeps the accepted list pairwise separated by the
window and bounded by the running time_stamp. -/
theorem debounce_fold_invariant (d : Nat) (events : List Nat) :
    ∀ (acc : List Nat) (last : Nat),
      acc.Pairwise (fun a b => a + d ≤ b) → (∀ a ∈ acc, a ≤ last) →
      ((events.foldl (debounceFold d) (acc, last)).1.Pairwise (fun a b => a + d ≤ b) ∧
       ∀ a ∈ (events.foldl (debounceFold d) (acc, last)).1,
         a ≤ (events.foldl (debounceFold d) (acc, last)).2) := by
  induction events with
  | nil =>
    intro acc last hp hb
    exact ⟨hp, hb⟩
  | cons t ts ih =>
    intro acc last hp hb
    rw [List.foldl_cons]
    by_cases hsup : last + d > t
    · have hstep : debounceFold d (acc, last) t = (acc, last) := by
        simp [debounceFold, debounceStep, if_pos hsup]
      rw [hstep]
      exact ih acc last hp hb
    · have hstep : debounceFold d (acc, last) t = (acc ++ [t], t) := by
        simp [debounceFold, debounceStep, if_neg hsup]
      rw [hstep]
      have hacc : t ≥ last + d := by omega
      refine ih (acc ++ [t]) t ?_ ?_
      · rw [List.pairwise_append]
        refine ⟨hp, by simp, ?_⟩
        intro a ha b hbmem
        have hb2 : b = t := by simpa using hbmem
        subst hb2
        have := hb a ha
        omega
      · intro a ha
        rcases List.mem_append.mp ha with h1 | h2
        · have := hb a h1
          omega
        · have h3 : a = t := by simpa using h2
          omega

/-- C9: with a positive debounce window d, every pair of accepted key-down
timestamps on one device is separated by at least d (the earlier plus d is
at most the later, for any event sequence), an otherwise-valid event at
last_accepted + d - 1 is suppressed and leaves the stamp unchanged, and one
at exactly last_accepted + d is accepted and updates the stamp. -/
theorem debounce_window_ok (d : Nat) (hd : 1 ≤ d) :
    (∀ events : List Nat,
      (debounceAccepted d events).Pairwise (fun a b => a + d ≤ b)) ∧
    (∀ lastTs : Nat, debounceStep d lastTs (lastTs + d - 1) = (false, lastTs)) ∧
    (∀ lastTs : Nat, debounceStep d lastTs (lastTs + d) = (true, lastTs + d)) := by
  refine ⟨?_, ?_, ?_⟩
  · intro events
    exact (debounce_fold_invariant d events [] 0 (by simp) (by simp)).1
  · intro lastTs
    rw [debounceStep, if_pos (by omega)]
  · intro lastTs
    rw [debounceStep, if_neg (by omega)]

/-- C9 witness: window 2 over the event times 10, 11, 12, 14 (11 falls
inside the window and is dropped), plus the two boundary cases at
last_accepted 10. -/
theorem debounce_window_ok_witness :
    (debounceAccepted 2 [10, 11, 12, 14]).Pairwise (fun a b => a + 2 ≤ b) ∧
    debounceStep 2 10 11 = (false, 10) ∧
    debounceStep 2 10 12 = (true, 12) := by
  refine ⟨(debounce_window_ok 2 (by decide)).1 [10, 11, 12, 14], ?_, ?_⟩
  · exact (debounce_window_ok 2 (by decide)).2.1 10
  · exact (debounce_window_ok 2 (by decide)).2.2 10

/-- C3 counterexample: a device that disconnects once and then stays
unopenable has already incurred six open attempts - more than
MAX_RECONNECT_ATTEMPTS - while the session has emitted no dead event at
all (reconnect_device retries the open without bound and the cap is only
consulted between monitor restarts). -/
theorem reconnect_cap_counterexample :
    openCount (monitorSessionRun 0 [List.replicate 6 false]) = 6 ∧
    MAX_RECONNECT_ATTEMPTS < 6 ∧
    deadCount (monitorSessionRun 0 [List.replicate 6 false]) = 0 := by
  rw [monitorSessionRun]
  decide

/-- The open-retry loop emits only open attempts, never a dead status. -/
theorem reconnectDeviceRun_no_dead (l : List Bool) :
    deadCount (reconnectDeviceRun l).1 = 0 := by
  induction l with
  | nil => rfl
  | cons o rest ih =>
    cases o with
    | true => rfl
    | false =>
      have hstep : (reconnectDeviceRun (false :: rest)).1 =
          SessionEvent.openAttempt false :: (reconnectDeviceRun rest).1 := rfl
      rw [hstep]
      simp only [deadCount, List.count_cons] at ih ⊢
      simp [ih]

/-- C3 amended: the bound the code enforces is on monitor restarts, not on
open attempts. A session whose device keeps disconnecting but whose
reconnect calls all eventually return emits the dead status exactly once -
when the restart counter has reached MAX_RECONNECT_ATTEMPTS - and the dead
status is the final event of the session, so no open attempt follows it.
(The counterexample shows the unopenable-device half of the original claim
fails: open attempts within one reconnect call are unbounded.) -/
theorem reconnect_cap_amended :
    ∀ (opens : List (List Bool)) (k : Nat),
      (∀ l ∈ opens, (reconnectDeviceRun l).2 = true) →
      MAX_RECONNECT_ATTEMPTS ≤ k + opens.length →
      deadCount (monitorSessionRun k opens) = 1 ∧
      (monitorSessionRun k opens).getLast? = some SessionEvent.statusDead := by
  intro opens
  induction opens with
  | nil =>
    intro k hsucc hlen
    have h5 : MAX_RECONNECT_ATTEMPTS ≤ k := by simpa using hlen
    rw [monitorSessionRun]
    rw [dif_pos h5]
    constructor
    · simp [deadCount, List.count_cons]
    · rfl
  | cons outs rest ih =>
    intro k hsucc hlen
    by_cases hk : MAX_RECONNECT_ATTEMPTS ≤ k
    · rw [monitorSessionRun, dif_pos hk]
      constructor
      · simp [deadCount, List.count_cons]
      · rfl
    · have hs : (reconnectDeviceRun outs).2 = true := hsucc outs (by simp)
      have hexp : monitorSessionRun k (outs :: rest) =
          SessionEvent.statusConnected :: SessionEvent.statusDisconnected ::
            ((reconnectDeviceRun outs).1 ++ monitorSessionRun (k + 1) rest) := by
        rw [monitorSessionRun, dif_neg hk]
        simp [hs]
      rw [hexp]
      have ihr := ih (k + 1) (fun l hl => hsucc l (List.mem_cons_of_mem _ hl))
        (by simp only [List.length_cons] at hlen; omega)
      have hne : monitorSessionRun (k + 1) rest ≠ [] := by
        intro hnil
        rw [hnil] at ihr
        simp at ihr
      constructor
      · simp only [deadCount, List.count_cons, List.count_append] at ihr ⊢
        have hnd := reconnectDeviceRun_no_dead outs
        simp only [deadCount] at hnd
        simp [hnd, ihr.1]
      · have hassoc : SessionEvent.statusConnected :: SessionEvent.statusDisconnected ::
              ((reconnectDeviceRun outs).1 ++ monitorSessionRun (k + 1) rest) =
            (SessionEvent.statusConnected :: SessionEvent.statusDisconnected ::
              (reconnectDeviceRun outs).1) ++ monitorSessionRun (k + 1) rest := by
          simp
        rw [hassoc, List.getLast?_append_of_ne_nil _ hne]
        exact ihr.2

/-- C3 amended witness: a session whose device disconnects in every round
and whose five reconnect calls each succeed on the first open. -/
theorem reconnect_cap_amended_witness :
    deadCount (monitorSessionRun 0 (List.replicate 5 [true])) = 1 ∧
    (monitorSessionRun 0 (List.replicate 5 [true])).getLast? =
      some SessionEvent.statusDead :=
  reconnect_cap_amended (List.replicate 5 [true]) 0 (by decide) (by decide)

/-- The parent slot lies strictly closer to the root. -/
theorem parentIdx_lt (i : Nat) (h : 0 < i) : parentIdx i < i := by
  unfold parentIdx
  omega

/-- The slots whose parent is p are exactly the two children of p. -/
theorem parentIdx_eq_iff (c p : Nat) (hc : 0 < c) :
    parentIdx c = p ↔ c = 2 * p + 1 ∨ c = 2 * p + 2 := by
  unfold parentIdx
  omega

/-- Reading the slot just written. -/
theorem prio_set_self (heap : List QueueRequest) (i : Nat) (v : QueueRequest)
    (h : i < heap.length) : prio (heap.set i v) i = v.priority := by
  unfold prio
  rw [List.getD_eq_getElem _ _ (by rw [List.length_set]; exact h), List.getElem_set_self]

/-- Reading a slot other than the one written. -/
theorem prio_set_ne (heap : List QueueRequest) (i j : Nat) (v : QueueRequest)
    (h : i ≠ j) : prio (heap.set i v) j = prio heap j := by
  unfold prio
  rw [List.getD_eq_getElem?_getD, List.getD_eq_getElem?_getD, List.getElem?_set_ne h]

/-- Reading inside the left part of an append. -/
theorem prio_append_left (heap l2 : List QueueRequest) (j : Nat)
    (h : j < heap.length) : prio (heap ++ l2) j = prio heap j := by
  unfold prio
  rw [List.getD_eq_getElem?_getD, List.getD_eq_getElem?_getD, List.getElem?_append_left h]

/-- Reading inside a dropLast. -/
theorem prio_dropLast (heap : List QueueRequest) (j : Nat)
    (h : j < heap.dropLast.length) : prio heap.dropLast j = prio heap j := by
  unfold prio
  have h2 : j < heap.length := by
    rw [List.length_dropLast] at h
    omega
  rw [List.getD_eq_getElem _ _ h, List.getD_eq_getElem _ _ h2, List.getElem_dropLast]

/-- The empty list is a heap. -/
theorem isHeap_nil : IsHeap [] := by
  intro i h0 hi
  simp at hi

/-- In a heap the root priority bounds every slot. -/
theorem isHeap_root_le (heap : List QueueRequest) (hh : IsHeap heap) :
    ∀ i, i < heap.length → prio heap 0 ≤ prio heap i := by
  intro i
  induction i using Nat.strong_induction_on with
  | _ i ih =>
    intro hi
    rcases Nat.eq_zero_or_pos i with h0 | h0
    · subst h0
      exact le_refl _
    · exact le_trans
        (ih (parentIdx i) (parentIdx_lt i h0) (lt_trans (parentIdx_lt i h0) hi))
        (hh i h0 hi)

/-- In a heap the root priority bounds every member. -/
theorem isHeap_root_min (heap : List QueueRequest) (hh : IsHeap heap)
    (x : QueueRequest) (hx : x ∈ heap) : prio heap 0 ≤ x.priority := by
  obtain ⟨n, hn, rfl⟩ := List.mem_iff_getElem.mp hx
  have h1 := isHeap_root_le heap hh n hn
  have h2 : prio heap n = (heap[n]).priority := by
    unfold prio
    rw [List.getD_eq_getElem _ _ hn]
  rwa [h2] at h1

/-- Writing newitem into slot pos yields a heap, provided every pair away
from pos is ordered, the parent of pos is at most newitem, and newitem is
at most every child of pos. -/
theorem set_pos_isHeap (heap : List QueueRequest) (newitem : QueueRequest) (pos : Nat)
    (hpos : pos < heap.length)
    (hInv1 : ∀ i, 0 < i → i < heap.length → i ≠ pos → parentIdx i ≠ pos →
      prio heap (parentIdx i) ≤ prio heap i)
    (hparent : 0 < pos → prio heap (parentIdx pos) ≤ newitem.priority)
    (hInv3 : ∀ c, 0 < c → c < heap.length → parentIdx c = pos →
      newitem.priority ≤ prio heap c) :
    IsHeap (heap.set pos newitem) := by
  intro i h0 hi
  rw [List.length_set] at hi
  by_cases hip : i = pos
  · subst hip
    have hpp : i ≠ parentIdx i := Ne.symm (Nat.ne_of_lt (parentIdx_lt i h0))
    rw [prio_set_self _ _ _ hi, prio_set_ne _ _ _ _ hpp]
    exact hparent h0
  · by_cases hpar : parentIdx i = pos
    · rw [prio_set_ne _ _ _ _ (fun he => hip he.symm), hpar, prio_set_self _ _ _ hpos]
      exact hInv3 i h0 hi hpar
    · rw [prio_set_ne _ _ _ _ (fun he => hip he.symm),
        prio_set_ne _ _ _ _ (fun he => hpar he.symm)]
      exact hInv1 i h0 hi hip hpar

/-- One-step unfolding of siftdownAux. -/
theorem siftdownAux_succ (newitem : QueueRequest) (fuel : Nat)
    (heap : List QueueRequest) (pos : Nat) :
    siftdownAux 0 newitem (fuel + 1) heap pos =
      if 0 < pos then
        (if qlt newitem (heap.getD (parentIdx pos) default) then
          siftdownAux 0 newitem fuel
            (heap.set pos (heap.getD (parentIdx pos) default)) (parentIdx pos)
        else heap.set pos newitem)
      else heap.set pos newitem := rfl

/-- The central siftdown lemma: with enough fuel, a heap with a hole at pos
(every pair away from pos ordered, the children of pos at least the parent
of pos, and the children of pos at least newitem) becomes a heap once
newitem is sifted in from pos toward the root. -/
theorem siftdownAux_isHeap (newitem : QueueRequest) :
    ∀ (fuel : Nat) (heap : List QueueRequest) (pos : Nat),
      pos ≤ fuel → pos < heap.length →
      (∀ i, 0 < i → i < heap.length → i ≠ pos → parentIdx i ≠ pos →
        prio heap (parentIdx i) ≤ prio heap i) →
      (0 < pos → ∀ c, c < heap.length → parentIdx c = pos →
        prio heap (parentIdx pos) ≤ prio heap c) →
      (∀ c, 0 < c → c < heap.length → parentIdx c = pos →
        newitem.priority ≤ prio heap c) →
      IsHeap (siftdownAux 0 newitem fuel heap pos) := by
  intro fuel
  induction fuel with
  | zero =>
    intro heap pos hfuel hpos hInv1 hInv2 hInv3
    have hp0 : pos = 0 := Nat.le_zero.mp hfuel
    subst hp0
    exact set_pos_isHeap heap newitem 0 hpos hInv1 (fun h => absurd h (lt_irrefl 0)) hInv3
  | succ fuel ih =>
    intro heap pos hfuel hpos hInv1 hInv2 hInv3
    rw [siftdownAux_succ]
    by_cases hsp : 0 < pos
    · rw [if_pos hsp]
      have hpplt : parentIdx pos < pos := parentIdx_lt pos hsp
      have hpplen : parentIdx pos < heap.length := lt_trans hpplt hpos
      by_cases hq : qlt newitem (heap.getD (parentIdx pos) default) = true
      · rw [if_pos hq]
        have hqlt : newitem.priority < prio heap (parentIdx pos) := by
          unfold qlt at hq
          unfold prio
          exact of_decide_eq_true hq
        apply ih
        · omega
        · rw [List.length_set]
          exact hpplen
        · intro i h0 hi hine hipar
          rw [List.length_set] at hi
          by_cases hipos : i = pos
          · exfalso
            apply hipar
            rw [hipos]
          · by_cases hpari : parentIdx i = pos
            · rw [hpari, prio_set_self _ _ _ hpos,
                prio_set_ne _ _ _ _ (fun he => hipos he.symm)]
              exact hInv2 hsp i hi hpari
            · rw [prio_set_ne _ _ _ _ (fun he => hpari he.symm),
                prio_set_ne _ _ _ _ (fun he => hipos he.symm)]
              exact hInv1 i h0 hi hipos hpari
        · intro hpp0 c hc hcp
          rw [List.length_set] at hc
          have hg : parentIdx (parentIdx pos) ≠ pos :=
            Nat.ne_of_lt (lt_trans (parentIdx_lt _ hpp0) hpplt)
          have hgpar : prio heap (parentIdx (parentIdx pos)) ≤ prio heap (parentIdx pos) :=
            hInv1 (parentIdx pos) hpp0 hpplen (Nat.ne_of_lt hpplt) hg
          rw [prio_set_ne _ _ _ _ (fun he => hg he.symm)]
          by_cases hcpos : c = pos
          · subst hcpos
            rw [prio_set_self _ _ _ hpos]
            exact hgpar
          · rw [prio_set_ne _ _ _ _ (fun he => hcpos he.symm)]
            have hc0 : 0 < c := by
              rcases Nat.eq_zero_or_pos c with h | h
              · exfalso
                subst h
                unfold parentIdx at hcp hpp0
                omega
              · exact h
            have h1 : prio heap (parentIdx pos) ≤ prio heap c := by
              rw [← hcp]
              exact hInv1 c hc0 hc hcpos (by rw [hcp]; exact Nat.ne_of_lt hpplt)
            exact le_trans hgpar h1
        · intro c hc0 hc hcp
          rw [List.length_set] at hc
          by_cases hcpos : c = pos
          · subst hcpos
            rw [prio_set_self _ _ _ hpos]
            exact le_of_lt hqlt
          · rw [prio_set_ne _ _ _ _ (fun he => hcpos he.symm)]
            have h1 : prio heap (parentIdx pos) ≤ prio heap c := by
              rw [← hcp]
              exact hInv1 c hc0 hc hcpos (by rw [hcp]; exact Nat.ne_of_lt hpplt)
            exact le_trans (le_of_lt hqlt) h1
      · rw [if_neg hq]
        have hle : prio heap (parentIdx pos) ≤ newitem.priority := by
          unfold qlt at hq
          unfold prio
          have := of_decide_eq_false (eq_false_of_ne_true hq)
          omega
        exact set_pos_isHeap heap newitem pos hpos hInv1 (fun _ => hle) hInv3
    · rw [if_neg hsp]
      have hp0 : pos = 0 := by omega
      subst hp0
      exact set_pos_isHeap heap newitem 0 hpos hInv1 (fun h => absurd h (lt_irrefl 0)) hInv3

/-- The chosen child is a child of pos, is in range, and compares at most
its sibling. -/
theorem childSel_spec (heap : List QueueRequest) (pos : Nat)
    (h : 2 * pos + 1 < heap.length) :
    parentIdx (childSel heap (2 * pos + 1)) = pos ∧
    2 * pos + 1 ≤ childSel heap (2 * pos + 1) ∧
    childSel heap (2 * pos + 1) < heap.length ∧
    (∀ s, s < heap.length → parentIdx s = pos → s ≠ pos →
      s ≠ childSel heap (2 * pos + 1) →
      prio heap (childSel heap (2 * pos + 1)) ≤ prio heap s) := by
  unfold childSel
  by_cases hcond : 2 * pos + 1 + 1 < heap.length ∧
      ¬ qlt (heap.getD (2 * pos + 1) default) (heap.getD (2 * pos + 1 + 1) default) = true
  · rw [if_pos hcond]
    refine ⟨by unfold parentIdx; omega, by omega, by omega, ?_⟩
    intro s hs hps hspos hsne
    have hs0 : 0 < s := by
      rcases Nat.eq_zero_or_pos s with h0 | h0
      · exfalso
        subst h0
        unfold parentIdx at hps
        omega
      · exact h0
    have hs1 : s = 2 * pos + 1 ∨ s = 2 * pos + 2 := (parentIdx_eq_iff s pos hs0).mp hps
    have hseq : s = 2 * pos + 1 := by omega
    subst hseq
    have h2 := of_decide_eq_false (eq_false_of_ne_true hcond.2)
    unfold prio
    omega
  · rw [if_neg hcond]
    refine ⟨by unfold parentIdx; omega, le_refl _, h, ?_⟩
    intro s hs hps hspos hsne
    have hs0 : 0 < s := by
      rcases Nat.eq_zero_or_pos s with h0 | h0
      · exfalso
        subst h0
        unfold parentIdx at hps
        omega
      · exact h0
    have hs1 : s = 2 * pos + 1 ∨ s = 2 * pos + 2 := (parentIdx_eq_iff s pos hs0).mp hps
    have hseq : s = 2 * pos + 2 := by omega
    subst hseq
    rw [not_and] at hcond
    have hq := hcond (by omega)
    rw [not_not] at hq
    have h2 := of_decide_eq_true hq
    have e : 2 * pos + 1 + 1 = 2 * pos + 2 := by omega
    rw [e] at h2
    unfold prio
    omega

/-- One-step unfolding of siftupAux. -/
theorem siftupAux_succ (newitem : QueueRequest) (fuel : Nat)
    (heap : List QueueRequest) (pos : Nat) :
    siftupAux 0 newitem (fuel + 1) heap pos =
      if 2 * pos + 1 < heap.length then
        siftupAux 0 newitem fuel
          (heap.set pos (heap.getD (childSel heap (2 * pos + 1)) default))
          (childSel heap (2 * pos + 1))
      else siftdown 0 newitem heap pos := rfl

/-- The central siftup lemma: with enough fuel, a heap with a hole at pos
(every pair away from pos ordered and the children of pos at least the
parent of pos) becomes a heap once the hole is walked to a childless slot
and newitem sifted back up. -/
theorem siftupAux_isHeap (newitem : QueueRequest) :
    ∀ (fuel : Nat) (heap : List QueueRequest) (pos : Nat),
      heap.length ≤ fuel + pos → pos < heap.length →
      (∀ i, 0 < i → i < heap.length → i ≠ pos → parentIdx i ≠ pos →
        prio heap (parentIdx i) ≤ prio heap i) →
      (0 < pos → ∀ c, c < heap.length → parentIdx c = pos →
        prio heap (parentIdx pos) ≤ prio heap c) →
      IsHeap (siftupAux 0 newitem fuel heap pos) := by
  intro fuel
  induction fuel with
  | zero =>
    intro heap pos hfuel hpos hInv1 hInv2
    omega
  | succ fuel ih =>
    intro heap pos hfuel hpos hInv1 hInv2
    rw [siftupAux_succ]
    by_cases hc : 2 * pos + 1 < heap.length
    · rw [if_pos hc]
      obtain ⟨hcp, hcge, hclt, hcmin⟩ := childSel_spec heap pos hc
      have hposc : pos < childSel heap (2 * pos + 1) := by omega
      apply ih
      · rw [List.length_set]
        omega
      · rw [List.length_set]
        exact hclt
      · intro i h0 hi hine hipar
        rw [List.length_set] at hi
        by_cases hipos : i = pos
        · rw [hipos]
          have hpos0 : 0 < pos := hipos ▸ h0
          have hpplt : parentIdx pos < pos := parentIdx_lt pos hpos0
          rw [prio_set_ne _ _ _ _ (Ne.symm (Nat.ne_of_lt hpplt)),
            prio_set_self _ _ _ hpos]
          exact hInv2 hpos0 (childSel heap (2 * pos + 1)) hclt hcp
        · by_cases hpari : parentIdx i = pos
          · rw [hpari, prio_set_self _ _ _ hpos,
              prio_set_ne _ _ _ _ (fun he => hipos he.symm)]
            exact hcmin i hi hpari hipos hine
          · rw [prio_set_ne _ _ _ _ (fun he => hpari he.symm),
              prio_set_ne _ _ _ _ (fun he => hipos he.symm)]
            exact hInv1 i h0 hi hipos hpari
      · intro hc0 ch hch hchp
        rw [List.length_set] at hch
        have hch0 : 0 < ch := by
          rcases Nat.eq_zero_or_pos ch with h0 | h0
          · exfalso
            subst h0
            unfold parentIdx at hchp
            omega
          · exact h0
        have hchge : ch = 2 * childSel heap (2 * pos + 1) + 1 ∨
            ch = 2 * childSel heap (2 * pos + 1) + 2 :=
          (parentIdx_eq_iff ch _ hch0).mp hchp
        have hchpos : ch ≠ pos := by omega
        rw [hcp, prio_set_self _ _ _ hpos,
          prio_set_ne _ _ _ _ (fun he => hchpos he.symm)]
        have h1 := hInv1 ch hch0 hch hchpos
          (by rw [hchp]; exact Ne.symm (Nat.ne_of_lt hposc))
        rw [hchp] at h1
        exact h1
    · rw [if_neg hc]
      show IsHeap (siftdownAux 0 newitem pos heap pos)
      apply siftdownAux_isHeap
      · exact le_refl _
      · exact hpos
      · exact hInv1
      · exact hInv2
      · intro c hc0 hcl hcp
        exfalso
        have := (parentIdx_eq_iff c pos hc0).mp hcp
        omega

/-- heappush yields a heap. -/
theorem heappush_isHeap (heap : List QueueRequest) (item : QueueRequest)
    (hh : IsHeap heap) : IsHeap (heappush heap item) := by
  show IsHeap (siftdownAux 0 item heap.length (heap ++ [item]) heap.length)
  apply siftdownAux_isHeap
  · exact le_refl _
  · simp
  · intro i h0 hi hine hipar
    rw [List.length_append, List.length_cons, List.length_nil] at hi
    have hilen : i < heap.length := by omega
    have hpilen : parentIdx i < heap.length := lt_trans (parentIdx_lt i h0) hilen
    rw [prio_append_left _ _ _ hpilen, prio_append_left _ _ _ hilen]
    exact hh i h0 hilen
  · intro hpos c hc hcp
    exfalso
    rw [List.length_append, List.length_cons, List.length_nil] at hc
    unfold parentIdx at hcp
    omega
  · intro c hc0 hc hcp
    exfalso
    rw [List.length_append, List.length_cons, List.length_nil] at hc
    unfold parentIdx at hcp
    omega

/-- The body of heappop on a heap of two or more entries yields a heap:
the tail entry overwrites the root of the shortened array and is sifted
up from there. -/
theorem pop_body_isHeap (heap : List QueueRequest) (hh : IsHeap heap)
    (h2 : 2 ≤ heap.length) (lastelt : QueueRequest) :
    IsHeap (siftup (heap.dropLast.set 0 lastelt) 0 0 lastelt) := by
  have hlen : (heap.dropLast.set 0 lastelt).length = heap.length - 1 := by
    rw [List.length_set, List.length_dropLast]
  show IsHeap (siftupAux 0 lastelt (heap.dropLast.set 0 lastelt).length
      (heap.dropLast.set 0 lastelt) 0)
  apply siftupAux_isHeap
  · omega
  · rw [hlen]
    omega
  · intro i h0i hi hine hipar
    rw [hlen] at hi
    have hi2 : i < heap.dropLast.length := by
      rw [List.length_dropLast]
      omega
    have hpi2 : parentIdx i < heap.dropLast.length := lt_trans (parentIdx_lt i h0i) hi2
    rw [prio_set_ne _ _ _ _ (fun he => hipar he.symm),
      prio_set_ne _ _ _ _ (fun he => hine he.symm),
      prio_dropLast _ _ hpi2, prio_dropLast _ _ hi2]
    apply hh i h0i
    rw [List.length_dropLast] at hi2
    omega
  · intro hpos
    exact absurd hpos (lt_irrefl 0)

/-- heappop yields a heap. -/
theorem heappop_isHeap (heap : List QueueRequest) (hh : IsHeap heap)
    (it : QueueRequest) (rest : List QueueRequest)
    (hpop : heappop heap = some (it, rest)) : IsHeap rest := by
  match heap with
  | [] => simp [heappop] at hpop
  | [x] =>
    simp only [heappop] at hpop
    rw [Option.some.injEq, Prod.mk.injEq] at hpop
    rw [← hpop.2]
    exact isHeap_nil
  | x :: y :: ys =>
    simp only [heappop] at hpop
    rw [Option.some.injEq, Prod.mk.injEq] at hpop
    rw [← hpop.2]
    exact pop_body_isHeap (x :: y :: ys) hh (by simp) _

/-- heappop returns the root entry. -/
theorem heappop_fst (heap : List QueueRequest) (it : QueueRequest)
    (rest : List QueueRequest) (hpop : heappop heap = some (it, rest)) :
    it = heap.getD 0 default := by
  match heap with
  | [] => simp [heappop] at hpop
  | [x] =>
    simp only [heappop] at hpop
    rw [Option.some.injEq, Prod.mk.injEq] at hpop
    rw [← hpop.1]
    rfl
  | x :: y :: ys =>
    simp only [heappop] at hpop
    rw [Option.some.injEq, Prod.mk.injEq] at hpop
    rw [← hpop.1]
    rfl

/-- Along any run of queue operations from a heap, the queue stays a heap
and every recorded dequeue took the root of the queue it saw. -/
theorem runOps_records (ops : List HeapOp) :
    ∀ (heap : List QueueRequest), IsHeap heap →
      ∀ p qb, (p, qb) ∈ (runOps ops heap).2 →
        IsHeap qb ∧ p = qb.getD 0 default := by
  induction ops with
  | nil =>
    intro heap hh p qb hmem
    simp [runOps] at hmem
  | cons op ops ih =>
    intro heap hh p qb hmem
    match op with
    | HeapOp.push it =>
      rw [show runOps (HeapOp.push it :: ops) heap = runOps ops (heappush heap it)
        from rfl] at hmem
      exact ih (heappush heap it) (heappush_isHeap heap it hh) p qb hmem
    | HeapOp.pop =>
      cases hpop : heappop heap with
      | none =>
        simp only [runOps, hpop] at hmem
        exact ih heap hh p qb hmem
      | some pr =>
        obtain ⟨it, rest⟩ := pr
        simp only [runOps, hpop] at hmem
        rcases List.mem_cons.mp hmem with heq | hmem2
        · rw [Prod.mk.injEq] at heq
          obtain ⟨hp, hq⟩ := heq
          subst hp
          subst hq
          exact ⟨hh, heappop_fst qb p rest hpop⟩
        · exact ih rest (heappop_isHeap heap hh it rest hpop) p qb hmem2

/-- C2 amended: every completed dequeue of the priority queue returns a
request whose priority is at most the priority of every request then in
the queue (lower numeric value served first); among equal priorities,
however, dequeue order is heap order, not enqueue order, as the
counterexample shows. -/
theorem priority_queue_dequeues_min (ops : List HeapOp) :
    ∀ p qb, (p, qb) ∈ (runOps ops []).2 → ∀ x ∈ qb, p.priority ≤ x.priority := by
  intro p qb hmem x hx
  obtain ⟨hheap, hfst⟩ := runOps_records ops [] isHeap_nil p qb hmem
  have hroot := isHeap_root_min qb hheap x hx
  rw [hfst]
  exact hroot

/-- C2 amended witness: enqueue priority 30 then priority 10, dequeue once
- the record shows the dequeue took the priority-10 request while the
priority-30 request was in the queue. -/
theorem priority_queue_dequeues_min_witness :
    ((⟨10, 1⟩ : QueueRequest)).priority ≤ ((⟨30, 2⟩ : QueueRequest)).priority :=
  priority_queue_dequeues_min [HeapOp.push ⟨30, 2⟩, HeapOp.push ⟨10, 1⟩, HeapOp.pop]
    ⟨10, 1⟩ [⟨10, 1⟩, ⟨30, 2⟩] (by decide) ⟨30, 2⟩ (by decide)

end AIImprov
